/-
Verification of the trading-backtester core against its specification.

Shallow embedding of the repository's Python sources:
  - src/backtester/portfolio.py   (Portfolio ledger)
  - src/backtester/engine.py      (Backtester, BacktestResults metrics)
  - src/strategies/base_strategy.py (position state machine)
  - src/strategies/ma_crossover.py  (MA crossover signals)
  - src/strategies/combined_strategy.py (multi-indicator signals)
  - src/indicators/technical_indicators.py (RSI)

Money amounts and prices are rationals; pandas float series are modelled
by an explicit type with NaN and signed infinities where the claims
depend on IEEE semantics (RSI division by zero).
-/
import Mathlib

set_option maxHeartbeats 1000000

namespace Backtest

/-- A record appended to trades_history by Portfolio.buy / Portfolio.sell.
The amount field is total_cost for a buy and total_proceeds for a sell. -/
structure TradeRec where
  date : Nat
  symbol : String
  isBuy : Bool
  shares : Nat
  price : ℚ
  commission : ℚ
  amount : ℚ
  cash_after : ℚ
  deriving DecidableEq, Repr

/-- One snapshot appended to equity_curve by Portfolio.record_equity. -/
structure EquityPoint where
  date : Nat
  cash : ℚ
  positions_value : ℚ
  total_value : ℚ
  deriving DecidableEq, Repr

/-- The Portfolio ledger state of src/backtester/portfolio.py.
positions models the Python dict symbol -> share count. -/
structure Portfolio where
  initial_capital : ℚ
  cash : ℚ
  positions : List (String × Nat)
  equity_curve : List EquityPoint
  trades_history : List TradeRec
  deriving DecidableEq, Repr

/-- Portfolio.__init__. -/
def Portfolio.init (initial_capital : ℚ) : Portfolio :=
  { initial_capital := initial_capital
    cash := initial_capital
    positions := []
    equity_curve := []
    trades_history := [] }

/-- Python dict get with default 0: self.positions.get(symbol, 0). -/
def posGet (ps : List (String × Nat)) (s : String) : Nat :=
  (ps.lookup s).getD 0

/-- Python dict assignment self.positions[symbol] = v: update in place
when the key exists, append otherwise. -/
def posSet (ps : List (String × Nat)) (s : String) (v : Nat) : List (String × Nat) :=
  if ps.any (fun e => e.1 == s) then
    ps.map (fun e => if e.1 == s then (s, v) else e)
  else
    ps ++ [(s, v)]

/-- Python del self.positions[symbol]. -/
def posDel (ps : List (String × Nat)) (s : String) : List (String × Nat) :=
  ps.filter (fun e => e.1 != s)

/-- Portfolio.get_position. -/
def Portfolio.get_position (pf : Portfolio) (symbol : String) : Nat :=
  posGet pf.positions symbol

/-- Portfolio.has_position: get_position(symbol) > 0. -/
def Portfolio.has_position (pf : Portfolio) (symbol : String) : Bool :=
  decide (0 < pf.get_position symbol)

/-- Portfolio.buy: returns the success flag together with the new state.
Declines (returning the state unchanged) when shares*price + commission
exceeds cash; otherwise debits cash, increments the position and appends
a trade record. -/
def Portfolio.buy (pf : Portfolio) (symbol : String) (shares : Nat) (price : ℚ)
    (date : Nat) (commission : ℚ) : Bool × Portfolio :=
  let total_cost : ℚ := shares * price + commission
  if total_cost > pf.cash then
    (false, pf)
  else
    let cash' := pf.cash - total_cost
    let current_shares := posGet pf.positions symbol
    (true,
      { pf with
        cash := cash'
        positions := posSet pf.positions symbol (current_shares + shares)
        trades_history := pf.trades_history ++
          [{ date := date, symbol := symbol, isBuy := true, shares := shares
             price := price, commission := commission, amount := total_cost
             cash_after := cash' }] })

/-- Portfolio.sell: returns the success flag together with the new state.
Declines when more shares are requested than held; otherwise credits
shares*price - commission, decrements the position (deleting the symbol
entry when it reaches zero) and appends a trade record. There is no
check against cash. -/
def Portfolio.sell (pf : Portfolio) (symbol : String) (shares : Nat) (price : ℚ)
    (date : Nat) (commission : ℚ) : Bool × Portfolio :=
  let current_shares := posGet pf.positions symbol
  if shares > current_shares then
    (false, pf)
  else
    let proceeds : ℚ := shares * price - commission
    let cash' := pf.cash + proceeds
    let ps' := posSet pf.positions symbol (current_shares - shares)
    let ps'' := if current_shares - shares = 0 then posDel ps' symbol else ps'
    (true,
      { pf with
        cash := cash'
        positions := ps''
        trades_history := pf.trades_history ++
          [{ date := date, symbol := symbol, isBuy := false, shares := shares
             price := price, commission := commission, amount := proceeds
             cash_after := cash' }] })

/-- Python dict get with default 0 on the current-prices mapping:
current_prices.get(symbol, 0). -/
def priceGet (prices : List (String × ℚ)) (s : String) : ℚ :=
  (prices.lookup s).getD 0

/-- The positions_value sum inside Portfolio.get_portfolio_value:
sum(shares * current_prices.get(symbol, 0) for symbol, shares in positions). -/
def positionsValue (prices : List (String × ℚ)) (ps : List (String × Nat)) : ℚ :=
  (ps.map (fun e => (e.2 : ℚ) * priceGet prices e.1)).sum

/-- Portfolio.get_portfolio_value: cash + positions_value. -/
def Portfolio.get_portfolio_value (pf : Portfolio) (prices : List (String × ℚ)) : ℚ :=
  pf.cash + positionsValue prices pf.positions

/-- Portfolio.record_equity: appends a snapshot whose positions_value is
computed as total_value - cash. -/
def Portfolio.record_equity (pf : Portfolio) (date : Nat)
    (prices : List (String × ℚ)) : Portfolio :=
  let total_value := pf.get_portfolio_value prices
  { pf with
    equity_curve := pf.equity_curve ++
      [{ date := date, cash := pf.cash
         positions_value := total_value - pf.cash
         total_value := total_value }] }

/-- One buy or sell call, with the arguments the Portfolio methods take. -/
inductive Order where
  | buy (symbol : String) (shares : Nat) (price : ℚ) (date : Nat) (commission : ℚ)
  | sell (symbol : String) (shares : Nat) (price : ℚ) (date : Nat) (commission : ℚ)
  deriving DecidableEq, Repr

/-- Execute one order on the ledger, keeping only the resulting state
(the boolean outcome is dropped, as in the engine loop). -/
def applyOrder (pf : Portfolio) : Order → Portfolio
  | .buy s sh p d c => (pf.buy s sh p d c).2
  | .sell s sh p d c => (pf.sell s sh p d c).2

/-- Execute a sequence of buy/sell calls left to right. -/
def runOrders (pf : Portfolio) (os : List Order) : Portfolio :=
  os.foldl applyOrder pf

/-- Shares, price and commission of an order are non-negative (shares are
Nat, so only the rational fields need stating). -/
def orderNonneg : Order → Prop
  | .buy _ _ p _ c => 0 ≤ p ∧ 0 ≤ c
  | .sell _ _ p _ c => 0 ≤ p ∧ 0 ≤ c

instance : DecidablePred orderNonneg := by
  intro o; cases o <;> simp [orderNonneg] <;> infer_instance

/-- A sell order whose commission does not exceed its gross proceeds;
buys are unconstrained. -/
def sellCovered : Order → Prop
  | .buy _ _ _ _ _ => True
  | .sell _ sh p _ c => c ≤ sh * p

instance : DecidablePred sellCovered := by
  intro o; cases o <;> simp [sellCovered] <;> infer_instance

/-- One iteration of the loop in BaseStrategy.calculate_positions:
a Buy signal while Flat opens the position, a Sell signal while Long
closes it, anything else leaves it unchanged. -/
def positionStep (current_position : Int) (signal : Int) : Int :=
  if signal = 1 ∧ current_position = 0 then 1
  else if signal = -1 ∧ current_position = 1 then 0
  else current_position

/-- The loop body of calculate_positions, carrying the running position. -/
def positionsFrom (current_position : Int) : List Int → List Int
  | [] => []
  | s :: rest =>
    let c := positionStep current_position s
    c :: positionsFrom c rest

/-- BaseStrategy.calculate_positions restricted to its signal column:
the position series produced from the signal series, starting Flat. -/
def calculate_positions (signals : List Int) : List Int :=
  positionsFrom 0 signals

/-- Backtester construction parameters (commission and slippage rates). -/
structure EngineCfg where
  commission_rate : ℚ
  slippage_rate : ℚ
  deriving Repr

/-- Python int() on a rational: truncation toward zero. -/
def pyInt (x : ℚ) : Int :=
  if 0 ≤ x then ⌊x⌋ else -⌊-x⌋

/-- Backtester.calculate_position_size with the default position_pct:
int(capital * 0.95 / price). -/
def calculate_position_size (capital price : ℚ) : Int :=
  pyInt (capital * (95 / 100) / price)

/-- Backtester.apply_slippage: price inflated on a buy, deflated on a sell. -/
def apply_slippage (cfg : EngineCfg) (price : ℚ) (isBuy : Bool) : ℚ :=
  if isBuy then price * (1 + cfg.slippage_rate)
  else price * (1 - cfg.slippage_rate)

/-- Backtester.calculate_commission: shares * price * commission_rate. -/
def calculate_commission (cfg : EngineCfg) (shares : Nat) (price : ℚ) : ℚ :=
  (shares : ℚ) * price * cfg.commission_rate

/-- One row of the positions DataFrame as consumed by Backtester.run. -/
structure Row where
  date : Nat
  close : ℚ
  signal : Int
  position : Int
  deriving DecidableEq, Repr

/-- One iteration of the bar loop in Backtester.run: on a Buy signal with
no open position, size the order from cash and the raw close, price it
with slippage, charge commission on the execution price, and submit; on
a Sell signal with an open position, sell the whole holding; in every
case record equity at the bar close. -/
def engineStep (cfg : EngineCfg) (symbol : String) (pf : Portfolio) (row : Row) :
    Portfolio :=
  let pf1 :=
    if row.signal = 1 then
      if pf.has_position symbol then pf
      else
        let shares := calculate_position_size pf.cash row.close
        if 0 < shares then
          let execution_price := apply_slippage cfg row.close true
          let commission := calculate_commission cfg shares.toNat execution_price
          (pf.buy symbol shares.toNat execution_price row.date commission).2
        else pf
    else if row.signal = -1 then
      if pf.has_position symbol then
        let shares := pf.get_position symbol
        if 0 < shares then
          let execution_price := apply_slippage cfg row.close false
          let commission := calculate_commission cfg shares execution_price
          (pf.sell symbol shares execution_price row.date commission).2
        else pf
      else pf
    else pf
  pf1.record_equity row.date [(symbol, row.close)]

/-- Backtester.run restricted to its ledger effects: a fresh Portfolio
replayed through every row in order. -/
def engineRun (cfg : EngineCfg) (symbol : String) (initial_capital : ℚ)
    (rows : List Row) : Portfolio :=
  rows.foldl (engineStep cfg symbol) (Portfolio.init initial_capital)

/-- Running maximum helper for the cummax column, carrying the max so far. -/
def cummaxFrom (m : ℚ) : List ℚ → List ℚ
  | [] => []
  | v :: vs =>
    let m' := max m v
    m' :: cummaxFrom m' vs

/-- equity_df['total_value'].cummax(). -/
def cummax : List ℚ → List ℚ
  | [] => []
  | v :: vs => v :: cummaxFrom v vs

/-- The drawdown column: (total_value - cummax) / cummax, elementwise. -/
def drawdownCol (vs : List ℚ) : List ℚ :=
  List.zipWith (fun v m => (v - m) / m) vs (cummax vs)

/-- equity_df['drawdown'].min() as computed in
BacktestResults._calculate_metrics; 0 on an empty curve. -/
def max_drawdown (vs : List ℚ) : ℚ :=
  match drawdownCol vs with
  | [] => 0
  | d :: ds => ds.foldl min d

/-- The running maximum written as the spec states it: the maximum of
total_value over all recorded points up to and including index i. -/
def runningMax (vs : List ℚ) (i : Nat) : ℚ :=
  ((vs.take (i + 1)).drop 1).foldl max (vs.getD 0 0)

/-- The drawdown at index i written as the spec states it. -/
def specDrawdownAt (vs : List ℚ) (i : Nat) : ℚ :=
  (vs.getD i 0 - runningMax vs i) / runningMax vs i

/-- The minimum over all recorded points of the spec-side drawdown. -/
def specMinDrawdown (vs : List ℚ) : ℚ :=
  match (List.range vs.length).map (specDrawdownAt vs) with
  | [] => 0
  | d :: ds => ds.foldl min d

/-- A pandas float64 cell: NaN, a signed infinity, or a finite value
(modelled exactly as a rational). -/
inductive PFloat where
  | nan
  | pinf
  | ninf
  | val (q : ℚ)
  deriving DecidableEq, Repr

namespace PFloat

/-- IEEE addition on the cases that arise here. -/
def add : PFloat → PFloat → PFloat
  | nan, _ => nan
  | _, nan => nan
  | pinf, ninf => nan
  | ninf, pinf => nan
  | pinf, _ => pinf
  | _, pinf => pinf
  | ninf, _ => ninf
  | _, ninf => ninf
  | val a, val b => val (a + b)

/-- IEEE subtraction. -/
def sub : PFloat → PFloat → PFloat
  | nan, _ => nan
  | _, nan => nan
  | pinf, pinf => nan
  | ninf, ninf => nan
  | pinf, _ => pinf
  | _, pinf => ninf
  | ninf, _ => ninf
  | _, ninf => pinf
  | val a, val b => val (a - b)

/-- IEEE division: a finite nonzero value divided by zero is a signed
infinity, 0/0 is NaN, a finite value divided by an infinity is 0. -/
def div : PFloat → PFloat → PFloat
  | nan, _ => nan
  | _, nan => nan
  | pinf, pinf => nan
  | pinf, ninf => nan
  | ninf, pinf => nan
  | ninf, ninf => nan
  | pinf, val b => if b < 0 then ninf else pinf
  | ninf, val b => if b < 0 then pinf else ninf
  | val _, pinf => val 0
  | val _, ninf => val 0
  | val a, val b =>
    if b = 0 then
      if a = 0 then nan else if 0 < a then pinf else ninf
    else val (a / b)

/-- pandas less-than: any comparison involving NaN is False. -/
def lt : PFloat → PFloat → Bool
  | nan, _ => false
  | _, nan => false
  | pinf, _ => false
  | ninf, pinf => true
  | ninf, ninf => false
  | ninf, val _ => true
  | val _, pinf => true
  | val _, ninf => false
  | val a, val b => decide (a < b)

/-- pandas less-or-equal: any comparison involving NaN is False. -/
def le : PFloat → PFloat → Bool
  | nan, _ => false
  | _, nan => false
  | pinf, pinf => true
  | pinf, _ => false
  | ninf, _ => true
  | val _, pinf => true
  | val _, ninf => false
  | val a, val b => decide (a ≤ b)

/-- pandas greater-than. -/
def gt (a b : PFloat) : Bool := lt b a

/-- pandas greater-or-equal. -/
def ge (a b : PFloat) : Bool := le b a

end PFloat

/-- series.diff(): NaN at index 0, the difference of consecutive values
afterwards. -/
def pdiff (data : List ℚ) : List PFloat :=
  (List.range data.length).map fun i =>
    if i = 0 then PFloat.nan else PFloat.val (data.getD i 0 - data.getD (i - 1) 0)

/-- delta.clip(lower=0), one cell: NaN stays NaN, a finite value is
clamped below at 0. -/
def clipLower0 : PFloat → PFloat
  | PFloat.nan => PFloat.nan
  | PFloat.pinf => PFloat.pinf
  | PFloat.ninf => PFloat.val 0
  | PFloat.val a => PFloat.val (max a 0)

/-- -delta.clip(upper=0), one cell. -/
def negClipUpper0 : PFloat → PFloat
  | PFloat.nan => PFloat.nan
  | PFloat.pinf => PFloat.val 0
  | PFloat.ninf => PFloat.pinf
  | PFloat.val a => PFloat.val (-(min a 0))

/-- Extract the finite values of a window; none when any cell is NaN
or infinite. -/
def valsOf : List PFloat → Option (List ℚ)
  | [] => some []
  | PFloat.val q :: rest => (valsOf rest).map (q :: ·)
  | _ => none

/-- The trailing window of width period ending at index i. -/
def windowAt (period : Nat) (xs : List PFloat) (i : Nat) : List PFloat :=
  (xs.take (i + 1)).drop (i + 1 - period)

/-- series.rolling(window=period).mean() at one index: NaN during warm-up
(fewer than period cells available) and NaN when the window holds any
non-finite cell, the arithmetic mean otherwise. -/
def rollingMeanAt (period : Nat) (xs : List PFloat) (i : Nat) : PFloat :=
  if i + 1 < period then PFloat.nan
  else
    match valsOf (windowAt period xs i) with
    | some ws => PFloat.val (ws.sum / period)
    | none => PFloat.nan

/-- series.rolling(window=period).mean() as an aligned series. -/
def rollingMean (period : Nat) (xs : List PFloat) : List PFloat :=
  (List.range xs.length).map (rollingMeanAt period xs)

/-- The rolling average gains of TechnicalIndicators.rsi. -/
def rsiAvgGains (data : List ℚ) (period : Nat) : List PFloat :=
  rollingMean period ((pdiff data).map clipLower0)

/-- The rolling average losses of TechnicalIndicators.rsi. -/
def rsiAvgLosses (data : List ℚ) (period : Nat) : List PFloat :=
  rollingMean period ((pdiff data).map negClipUpper0)

/-- The final arithmetic of TechnicalIndicators.rsi on one cell of rs:
100 - (100 / (1 + rs)). -/
def rsiOfRs (rs : PFloat) : PFloat :=
  PFloat.sub (PFloat.val 100) (PFloat.div (PFloat.val 100) (PFloat.add (PFloat.val 1) rs))

/-- TechnicalIndicators.rsi: rs = avg_gains / avg_losses elementwise,
then 100 - 100/(1+rs). -/
def rsiList (data : List ℚ) (period : Nat) : List PFloat :=
  (List.zipWith PFloat.div (rsiAvgGains data period) (rsiAvgLosses data period)).map rsiOfRs

/-- The strategy input DataFrame: the close column plus named indicator
columns (which may be absent). -/
structure DFrame where
  close : List ℚ
  cols : List (String × List PFloat)
  deriving Repr

/-- Column membership test: name in df.columns. -/
def hasCol (df : DFrame) (name : String) : Bool :=
  (df.cols.lookup name).isSome

/-- Column access once presence is established (empty list otherwise). -/
def getColD (df : DFrame) (name : String) : List PFloat :=
  (df.cols.lookup name).getD []

/-- series.shift(1) read at index i: NaN at index 0, the previous cell
afterwards. -/
def shiftAt (xs : List PFloat) (i : Nat) : PFloat :=
  if i = 0 then PFloat.nan else xs.getD (i - 1) PFloat.nan

/-- The short or long SMA column MovingAverageCrossover.generate_signals
ends up using: the provided sma_{window} column when present, otherwise
the rolling mean it computes itself from close. -/
def maResolvedCol (window : Nat) (df : DFrame) : List PFloat :=
  match df.cols.lookup ("sma_" ++ toString window) with
  | some c => c
  | none => rollingMean window (df.close.map PFloat.val)

/-- The signal assigned at index i by MovingAverageCrossover: 1 on a bar
where short > long and previously short <= long, -1 on the reverse
crossing, 0 otherwise (comparisons involving NaN are false). -/
def maSignalAt (shortMa longMa : List PFloat) (i : Nat) : Int :=
  let si := shortMa.getD i PFloat.nan
  let li := longMa.getD i PFloat.nan
  let sp := shiftAt shortMa i
  let lp := shiftAt longMa i
  if PFloat.gt si li && PFloat.le sp lp then 1
  else if PFloat.lt si li && PFloat.ge sp lp then -1
  else 0

/-- The signal column of MovingAverageCrossover.generate_signals. -/
def maCrossoverSignals (shortWindow longWindow : Nat) (df : DFrame) : List Int :=
  (List.range df.close.length).map
    (maSignalAt (maResolvedCol shortWindow df) (maResolvedCol longWindow df))

/-- MovingAverageCrossover.generate_signals as a fallible computation:
the Python method never raises on missing columns (it computes the SMAs
itself), so the result is always ok. -/
def maCrossoverGenerateSignals (shortWindow longWindow : Nat) (df : DFrame) :
    Except String (List Int) :=
  Except.ok (maCrossoverSignals shortWindow longWindow df)

/-- The indicator columns CombinedStrategy.generate_signals requires. -/
def combinedRequired : List String :=
  ["rsi", "macd", "macd_signal", "bb_upper", "bb_lower"]

/-- The required columns absent from the input. -/
def combinedMissing (df : DFrame) : List String :=
  combinedRequired.filter (fun c => !(hasCol df c))

/-- The rsi_signal column value at index i: the second .loc assignment
(overbought, -1) overwrites the first (oversold, 1). -/
def combinedRsiSigAt (rsi : List PFloat) (oversold overbought : ℚ) (i : Nat) : Int :=
  if PFloat.gt (rsi.getD i PFloat.nan) (PFloat.val overbought) then -1
  else if PFloat.lt (rsi.getD i PFloat.nan) (PFloat.val oversold) then 1
  else 0

/-- The macd_signal column after df['macd_signal'] = 0 and the first .loc
assignment: the mask compares macd against the zeroed column (the
indicator signal line was overwritten). -/
def combinedMacdSig1 (macd : List PFloat) (n : Nat) : List PFloat :=
  let ms0 : List PFloat := List.replicate n (PFloat.val 0)
  (List.range n).map fun i =>
    if PFloat.gt (macd.getD i PFloat.nan) (ms0.getD i PFloat.nan) &&
       PFloat.le (shiftAt macd i) (shiftAt ms0 i) then PFloat.val 1
    else PFloat.val 0

/-- The macd_signal column after the second .loc assignment, whose mask
reads the column as mutated by the first assignment. -/
def combinedMacdSig2 (macd : List PFloat) (n : Nat) : List PFloat :=
  let ms1 := combinedMacdSig1 macd n
  (List.range n).map fun i =>
    if PFloat.lt (macd.getD i PFloat.nan) (ms1.getD i PFloat.nan) &&
       PFloat.ge (shiftAt macd i) (shiftAt ms1 i) then PFloat.val (-1)
    else ms1.getD i PFloat.nan

/-- The bb_signal column value at index i: the upper-band assignment (-1)
overwrites the lower-band one (1). -/
def combinedBbSigAt (close : List ℚ) (bbU bbL : List PFloat) (i : Nat) : Int :=
  if PFloat.ge (PFloat.val (close.getD i 0)) (bbU.getD i PFloat.nan) then -1
  else if PFloat.le (PFloat.val (close.getD i 0)) (bbL.getD i PFloat.nan) then 1
  else 0

/-- The signal column of CombinedStrategy.generate_signals, after the
required-column check has passed. -/
def combinedSignals (oversold overbought : ℚ) (min_signals : Nat) (df : DFrame) :
    List Int :=
  let n := df.close.length
  let rsi := getColD df "rsi"
  let macd := getColD df "macd"
  let bbU := getColD df "bb_upper"
  let bbL := getColD df "bb_lower"
  let ms2 := combinedMacdSig2 macd n
  (List.range n).map fun i =>
    let rsiS := combinedRsiSigAt rsi oversold overbought i
    let bbS := combinedBbSigAt df.close bbU bbL i
    let buy_strength : Nat :=
      (if rsiS = 1 then 1 else 0) +
      (if ms2.getD i PFloat.nan = PFloat.val 1 then 1 else 0) +
      (if bbS = 1 then 1 else 0)
    let sell_strength : Nat :=
      (if rsiS = -1 then 1 else 0) +
      (if ms2.getD i PFloat.nan = PFloat.val (-1) then 1 else 0) +
      (if bbS = -1 then 1 else 0)
    if min_signals ≤ sell_strength then -1
    else if min_signals ≤ buy_strength then 1
    else 0

/-- CombinedStrategy.generate_signals: raises a ValueError naming the
missing indicators when any required column is absent, otherwise
computes the signal column. -/
def combinedGenerateSignals (oversold overbought : ℚ) (min_signals : Nat)
    (df : DFrame) : Except String (List Int) :=
  let missing := combinedMissing df
  if missing.isEmpty then
    Except.ok (combinedSignals oversold overbought min_signals df)
  else
    Except.error ("Missing required indicators: " ++ String.intercalate ", " missing)

/-- Whether a fallible computation completed without raising. -/
def exceptOk {ε α : Type} : Except ε α → Bool
  | Except.ok _ => true
  | Except.error _ => false

/-- The concrete crossover scenario input: close [1,2,3,4,5] with a
short SMA column [1,2,3,4,5] and a long SMA column [3,3,3,3,3]. -/
def crossoverScenarioDf : DFrame :=
  ⟨[1, 2, 3, 4, 5],
   [("sma_2", [1, 2, 3, 4, 5].map (fun q : ℚ => PFloat.val q)),
    ("sma_3", [3, 3, 3, 3, 3].map (fun q : ℚ => PFloat.val q))]⟩

/-- Theorems. -/

theorem buy_cash_nonneg (pf : Portfolio) (s : String) (sh : Nat) (p : ℚ)
    (d : Nat) (c : ℚ) (h : 0 ≤ pf.cash) : 0 ≤ ((pf.buy s sh p d c).2).cash := by
  simp only [Portfolio.buy]
  split_ifs with hc
  · exact h
  · push_neg at hc
    simpa using hc

theorem sell_cash_nonneg (pf : Portfolio) (s : String) (sh : Nat) (p : ℚ)
    (d : Nat) (c : ℚ) (h : 0 ≤ pf.cash) (hcov : c ≤ (sh : ℚ) * p) :
    0 ≤ ((pf.sell s sh p d c).2).cash := by
  simp only [Portfolio.sell]
  split_ifs with hs <;> simp only [] <;> linarith

theorem applyOrder_cash_nonneg (pf : Portfolio) (o : Order)
    (h : 0 ≤ pf.cash) (hcov : sellCovered o) : 0 ≤ (applyOrder pf o).cash := by
  cases o with
  | buy s sh p d c => exact buy_cash_nonneg pf s sh p d c h
  | sell s sh p d c => exact sell_cash_nonneg pf s sh p d c h hcov

theorem runOrders_take_cash_nonneg (pf : Portfolio) (os : List Order)
    (h : 0 ≤ pf.cash) (hcov : ∀ o ∈ os, sellCovered o) :
    ∀ n, 0 ≤ (runOrders pf (os.take n)).cash := by
  induction os generalizing pf with
  | nil => intro n; simpa [runOrders] using h
  | cons o rest ih =>
    intro n
    cases n with
    | zero => simpa [runOrders] using h
    | succ m =>
      have h1 : 0 ≤ (applyOrder pf o).cash :=
        applyOrder_cash_nonneg pf o h (hcov o (by simp))
      have h2 : ∀ o' ∈ rest, sellCovered o' := fun o' ho' => hcov o' (by simp [ho'])
      simpa [runOrders, List.take_succ_cons, List.foldl_cons] using ih (applyOrder pf o) h1 h2 m

/-- C1 counterexample: starting from capital 100 (non-negative), a buy of
1 share at price 10 with commission 0 followed by a sell of 1 share at
price 1 with commission 200 - all shares, prices and commissions
non-negative - is accepted by both calls, yet leaves cash at -109: the
sell is not rejected even though its effect makes cash negative. -/
theorem cash_can_go_negative_via_sell :
    (((Portfolio.init 100).buy "A" 1 10 0 0).1 = true) ∧
    ((((Portfolio.init 100).buy "A" 1 10 0 0).2.sell "A" 1 1 1 200).1 = true) ∧
    ((((Portfolio.init 100).buy "A" 1 10 0 0).2.sell "A" 1 1 1 200).2.cash = -109) := by
  refine ⟨?_, ?_, ?_⟩ <;>
    norm_num [Portfolio.init, Portfolio.buy, Portfolio.sell, posGet, posSet, posDel]

/-- C1 amended: for every Portfolio with initial_capital >= 0 and every
sequence of buy and sell calls with non-negative shares, price and
commission in which, additionally, every sell's commission is at most
shares*price, the ledger's cash is >= 0 after every call (buys that
would overdraw cash are rejected; sells are only checked against the
held share count). -/
theorem cash_nonneg_when_sell_commission_covered (init : ℚ) (os : List Order)
    (h0 : 0 ≤ init) (_hnn : ∀ o ∈ os, orderNonneg o)
    (hcov : ∀ o ∈ os, sellCovered o) :
    ∀ n, 0 ≤ (runOrders (Portfolio.init init) (os.take n)).cash :=
  runOrders_take_cash_nonneg (Portfolio.init init) os h0 hcov

/-- C1 amended witness at a concrete order sequence. -/
theorem cash_nonneg_when_sell_commission_covered_witness :
    0 ≤ (runOrders (Portfolio.init 100)
          ([Order.buy "A" 2 10 0 1, Order.sell "A" 2 10 1 1].take 2)).cash :=
  cash_nonneg_when_sell_commission_covered 100
    [Order.buy "A" 2 10 0 1, Order.sell "A" 2 10 1 1]
    (by norm_num)
    (by intro o ho; fin_cases ho <;> norm_num [orderNonneg])
    (by intro o ho; fin_cases ho <;> norm_num [sellCovered]) 2

/-- C4: Portfolio.buy returns a declined result exactly when
shares*price + commission > cash, a declined buy leaves the whole state
unchanged, and the concrete insolvent buy (cash 100, 10 shares at 20
with commission 5) is declined with cash staying exactly 100. -/
theorem buy_declined_iff_insufficient_cash (pf : Portfolio) (s : String)
    (sh : Nat) (p : ℚ) (d : Nat) (c : ℚ) :
    (((pf.buy s sh p d c).1 = false) ↔ pf.cash < (sh : ℚ) * p + c) ∧
    (pf.cash < (sh : ℚ) * p + c → (pf.buy s sh p d c).2 = pf) ∧
    (((Portfolio.init 100).buy "A" 10 20 0 5).1 = false) ∧
    (((Portfolio.init 100).buy "A" 10 20 0 5).2.cash = 100) := by
  refine ⟨?_, ?_, by norm_num [Portfolio.init, Portfolio.buy],
    by norm_num [Portfolio.init, Portfolio.buy]⟩
  · simp only [Portfolio.buy]
    split_ifs with hc
    · simpa using hc
    · push_neg at hc
      simpa using hc
  · intro hlt
    simp only [Portfolio.buy]
    split_ifs with hc
    · rfl
    · push_neg at hc
      exact absurd hlt (not_lt.mpr hc)

/-- C4 witness at a concrete declined buy. -/
theorem buy_declined_iff_insufficient_cash_witness :
    ((Portfolio.init 100).buy "A" 10 20 0 5).2 = Portfolio.init 100 :=
  (buy_declined_iff_insufficient_cash (Portfolio.init 100) "A" 10 20 0 5).2.1
    (by norm_num [Portfolio.init])

/-- C9: Portfolio.sell returns a declined result exactly when the
requested share count exceeds the held share count for that symbol, and
a declined sell leaves the entire state - cash, positions,
trades_history and equity_curve - unchanged. -/
theorem sell_declined_iff_insufficient_shares (pf : Portfolio) (s : String)
    (sh : Nat) (p : ℚ) (d : Nat) (c : ℚ) :
    (((pf.sell s sh p d c).1 = false) ↔ posGet pf.positions s < sh) ∧
    (posGet pf.positions s < sh → (pf.sell s sh p d c).2 = pf) := by
  constructor
  · simp only [Portfolio.sell]
    split_ifs with hs
    · simpa using hs
    · push_neg at hs
      simpa using hs
  · intro hlt
    simp only [Portfolio.sell]
    split_ifs with hs
    · rfl
    · exact absurd hlt (by omega)

/-- C9 witness at a concrete declined sell (no shares held). -/
theorem sell_declined_iff_insufficient_shares_witness :
    ((Portfolio.init 50).sell "A" 5 10 0 1).2 = Portfolio.init 50 :=
  (sell_declined_iff_insufficient_shares (Portfolio.init 50) "A" 5 10 0 1).2
    (by norm_num [Portfolio.init, posGet])

theorem positionsValue_filter_of_zero_price (prices : List (String × ℚ))
    (s : String) (h : priceGet prices s = 0) (ps : List (String × Nat)) :
    positionsValue prices (ps.filter (fun e => e.1 != s)) = positionsValue prices ps := by
  induction ps with
  | nil => rfl
  | cons e rest ih =>
    by_cases he : e.1 = s
    · have : (e.1 != s) = false := by simp [he]
      simp [positionsValue, List.filter_cons, this, he, h] at *
      simpa using ih
    · have : (e.1 != s) = true := by simp [he]
      simp [positionsValue, List.filter_cons, this] at *
      rw [ih]

/-- C10: a held symbol absent from the supplied prices mapping is valued
at price 0, so the portfolio value equals that of the portfolio with the
missing-symbol position removed; the snapshot record_equity appends still
satisfies total_value = cash + positions_value exactly. -/
theorem absent_price_valued_at_zero (pf : Portfolio) (s : String)
    (prices : List (String × ℚ)) (d : Nat) (habs : prices.lookup s = none) :
    priceGet prices s = 0 ∧
    pf.get_portfolio_value prices =
      Portfolio.get_portfolio_value
        { pf with positions := pf.positions.filter (fun e => e.1 != s) } prices ∧
    ∃ pt : EquityPoint,
      (pf.record_equity d prices).equity_curve = pf.equity_curve ++ [pt] ∧
      pt.total_value = pt.cash + pt.positions_value ∧
      pt.cash = pf.cash ∧
      pt.total_value = pf.get_portfolio_value prices := by
  have hz : priceGet prices s = 0 := by simp [priceGet, habs]
  refine ⟨hz, ?_, ?_⟩
  · simp only [Portfolio.get_portfolio_value]
    rw [positionsValue_filter_of_zero_price prices s hz pf.positions]
  · refine ⟨_, rfl, ?_, rfl, rfl⟩
    simp [Portfolio.record_equity]

/-- C10 witness: a portfolio holding 5 shares of B valued against a
price mapping that only quotes A. -/
theorem absent_price_valued_at_zero_witness :
    ({ initial_capital := 10, cash := 10, positions := [("B", 5)],
       equity_curve := [], trades_history := [] } : Portfolio).get_portfolio_value
        [("A", 3)] =
      Portfolio.get_portfolio_value
        { initial_capital := 10, cash := 10,
          positions := [("B", 5)].filter (fun e => e.1 != "B"),
          equity_curve := [], trades_history := [] } [("A", 3)] :=
  (absent_price_valued_at_zero
    { initial_capital := 10, cash := 10, positions := [("B", 5)],
      equity_curve := [], trades_history := [] } "B" [("A", 3)] 0
    (by simp [List.lookup])).2.1

/-- Every position value produced by the state machine is a value the
step function can output from a {0,1} state. -/
theorem positionStep_mem (c s : Int) (h : c = 0 ∨ c = 1) :
    positionStep c s = 0 ∨ positionStep c s = 1 := by
  unfold positionStep
  split_ifs <;> simp [h]

theorem positionsFrom_mem (l : List Int) :
    ∀ c, (c = 0 ∨ c = 1) → ∀ x ∈ positionsFrom c l, x = 0 ∨ x = 1 := by
  induction l with
  | nil => intro c _ x hx; simp [positionsFrom] at hx
  | cons s rest ih =>
    intro c hc x hx
    simp only [positionsFrom, List.mem_cons] at hx
    rcases hx with hx | hx
    · rw [hx]; exact positionStep_mem c s hc
    · exact ih (positionStep c s) (positionStep_mem c s hc) x hx

theorem positionsFrom_length (l : List Int) : ∀ c, (positionsFrom c l).length = l.length := by
  induction l with
  | nil => intro c; rfl
  | cons s rest ih => intro c; simp [positionsFrom, ih]

theorem positionsFrom_head (l : List Int) (c : Int) (h : 0 < l.length) :
    (positionsFrom c l).getD 0 0 = positionStep c (l.getD 0 0) := by
  cases l with
  | nil => simp at h
  | cons s rest => rfl

theorem positionsFrom_rec (l : List Int) :
    ∀ c i, i + 1 < l.length →
      (positionsFrom c l).getD (i + 1) 0 =
        positionStep ((positionsFrom c l).getD i 0) (l.getD (i + 1) 0) := by
  induction l with
  | nil => intro c i h; simp at h
  | cons s rest ih =>
    intro c i h
    cases i with
    | zero =>
      have hr : 0 < rest.length := by simpa using h
      simpa [positionsFrom] using positionsFrom_head rest (positionStep c s) hr
    | succ j =>
      have hr : j + 1 < rest.length := by simpa using h
      simpa [positionsFrom] using ih (positionStep c s) j hr

/-- C2: calculate_positions implements the Flat/Long state machine from
an initial Flat state: every entry is 0 or 1, the series is aligned with
the signals, the first entry is the step from Flat on the first signal,
each later entry is the step from the previous entry on that bar's
signal, and the step function goes Flat to Long on Buy, Long to Flat on
Sell, is a no-op for Sell while Flat and Buy while Long, and leaves the
position unchanged on any other input. -/
theorem calculate_positions_state_machine (signals : List Int) :
    (∀ x ∈ calculate_positions signals, x = 0 ∨ x = 1) ∧
    (calculate_positions signals).length = signals.length ∧
    (0 < signals.length →
      (calculate_positions signals).getD 0 0 = positionStep 0 (signals.getD 0 0)) ∧
    (∀ i, i + 1 < signals.length →
      (calculate_positions signals).getD (i + 1) 0 =
        positionStep ((calculate_positions signals).getD i 0) (signals.getD (i + 1) 0)) ∧
    positionStep 0 1 = 1 ∧ positionStep 1 (-1) = 0 ∧
    positionStep 0 (-1) = 0 ∧ positionStep 1 1 = 1 ∧
    (∀ c s : Int, ¬(s = 1 ∧ c = 0) → ¬(s = -1 ∧ c = 1) → positionStep c s = c) := by
  refine ⟨positionsFrom_mem signals 0 (Or.inl rfl),
    positionsFrom_length signals 0,
    positionsFrom_head signals 0,
    positionsFrom_rec signals 0,
    by decide, by decide, by decide, by decide, ?_⟩
  intro c s h1 h2
  unfold positionStep
  rw [if_neg h1, if_neg h2]

/-- C2 witness at a concrete signal sequence. -/
theorem calculate_positions_state_machine_witness :
    ((calculate_positions [1, -1, -1, 1]).getD 1 0 =
      positionStep ((calculate_positions [1, -1, -1, 1]).getD 0 0)
        ([(1 : Int), -1, -1, 1].getD 1 0)) ∧
    (∀ x ∈ calculate_positions [1, -1, -1, 1], x = 0 ∨ x = 1) :=
  ⟨(calculate_positions_state_machine [1, -1, -1, 1]).2.2.2.1 0 (by norm_num),
   (calculate_positions_state_machine [1, -1, -1, 1]).1⟩

theorem pyInt_eq_floor_of_nonneg (x : ℚ) (h : 0 ≤ x) : pyInt x = ⌊x⌋ := if_pos h

/-- C3 counterexample: with slippage_rate 1/20 and commission_rate 0, one
Buy bar at close 1 starting from cash 100 submits an order of 95 shares
(floor of cash*0.95 divided by the raw close), while floor of cash*0.95
divided by the execution price close*(1+slippage_rate) is 90. -/
theorem engine_sizes_buy_from_raw_close :
    (engineRun ⟨0, 1/20⟩ "A" 100 [⟨0, 1, 1, 1⟩]).trades_history.map TradeRec.shares
      = [95] ∧
    ⌊(100 : ℚ) * (95 / 100) / ((1 : ℚ) * (1 + 1/20))⌋ = 90 ∧
    (95 : ℕ) ≠ 90 := by
  refine ⟨?_, ?_, by norm_num⟩
  · have hsz : calculate_position_size (100 : ℚ) 1 = 95 := by
      norm_num [calculate_position_size, pyInt]
    have ht : ((95 : ℤ).toNat : ℕ) = 95 := rfl
    simp only [engineRun, engineStep, Portfolio.init, Portfolio.has_position,
      Portfolio.get_position, posGet, List.foldl_cons, List.foldl_nil]
    norm_num [hsz, ht, apply_slippage, calculate_commission, Portfolio.buy, posSet,
      Portfolio.record_equity, Portfolio.get_portfolio_value, positionsValue, priceGet]
  · rw [Int.floor_eq_iff]
    norm_num

/-- C3 amended: on a Buy-signal bar with no open position, non-negative
cash and positive close, when the computed size is positive the engine
submits a buy of floor(cash*0.95/close) shares - sized from the raw
close, not the execution price - at execution price
close*(1+slippage_rate), with commission size*execution_price*
commission_rate, then records equity at the close. -/
theorem engine_buy_order_parameters (cfg : EngineCfg) (symbol : String)
    (pf : Portfolio) (row : Row)
    (hsig : row.signal = 1) (hpos : pf.has_position symbol = false)
    (hcash : 0 ≤ pf.cash) (hclose : 0 < row.close)
    (hshares : 0 < ⌊pf.cash * (95 / 100) / row.close⌋) :
    engineStep cfg symbol pf row =
      ((pf.buy symbol (⌊pf.cash * (95 / 100) / row.close⌋).toNat
          (row.close * (1 + cfg.slippage_rate)) row.date
          (((⌊pf.cash * (95 / 100) / row.close⌋).toNat : ℚ) *
            (row.close * (1 + cfg.slippage_rate)) * cfg.commission_rate)).2).record_equity
        row.date [(symbol, row.close)] := by
  have hq : 0 ≤ pf.cash * (95 / 100) / row.close :=
    div_nonneg (mul_nonneg hcash (by norm_num)) hclose.le
  have hsz : calculate_position_size pf.cash row.close
      = ⌊pf.cash * (95 / 100) / row.close⌋ := by
    simp [calculate_position_size, pyInt, hq]
  simp [engineStep, hsig, hpos, hsz, hshares, apply_slippage, calculate_commission]

/-- C3 amended witness at the concrete one-bar backtest. -/
theorem engine_buy_order_parameters_witness :
    engineStep ⟨0, 1/20⟩ "A" (Portfolio.init 100) ⟨0, 1, 1, 1⟩ =
      (((Portfolio.init 100).buy "A" (⌊(100 : ℚ) * (95 / 100) / 1⌋).toNat
          ((1 : ℚ) * (1 + 1/20)) 0
          (((⌊(100 : ℚ) * (95 / 100) / 1⌋).toNat : ℚ) *
            ((1 : ℚ) * (1 + 1/20)) * 0)).2).record_equity 0 [("A", 1)] :=
  engine_buy_order_parameters ⟨0, 1/20⟩ "A" (Portfolio.init 100) ⟨0, 1, 1, 1⟩
    rfl rfl (by norm_num [Portfolio.init]) (by norm_num)
    (by norm_num [Portfolio.init])

theorem cummaxFrom_length (vs : List ℚ) : ∀ m, (cummaxFrom m vs).length = vs.length := by
  induction vs with
  | nil => intro m; rfl
  | cons x tl ih => intro m; simp [cummaxFrom, ih]

theorem cummax_length (vs : List ℚ) : (cummax vs).length = vs.length := by
  cases vs with
  | nil => rfl
  | cons v tl => simp [cummax, cummaxFrom_length]

theorem foldl_max_init_le (l : List ℚ) : ∀ b, b ≤ l.foldl max b := by
  induction l with
  | nil => intro b; simp
  | cons x l ih => intro b; exact le_trans (le_max_left b x) (ih (max b x))

theorem foldl_max_mem_le (l : List ℚ) : ∀ b a, a ∈ l → a ≤ l.foldl max b := by
  induction l with
  | nil => intro b a ha; simp at ha
  | cons x l ih =>
    intro b a ha
    rcases List.mem_cons.mp ha with ha | ha
    · rw [ha, List.foldl_cons]
      exact le_trans (le_max_right b x) (foldl_max_init_le l (max b x))
    · exact ih (max b x) a ha

theorem foldl_min_le_init (l : List ℚ) : ∀ b, l.foldl min b ≤ b := by
  induction l with
  | nil => intro b; simp
  | cons x l ih => intro b; exact le_trans (ih (min b x)) (min_le_left b x)

theorem cummaxFrom_getD (vs : List ℚ) :
    ∀ m i, i < vs.length →
      (cummaxFrom m vs).getD i 0 = (vs.take (i + 1)).foldl max m := by
  induction vs with
  | nil => intro m i h; simp at h
  | cons x tl ih =>
    intro m i h
    cases i with
    | zero => simp [cummaxFrom]
    | succ j =>
      have hj : j < tl.length := by simpa using h
      simpa [cummaxFrom, List.take_succ_cons] using ih (max m x) j hj

theorem cummax_getD (vs : List ℚ) (i : Nat) (h : i < vs.length) :
    (cummax vs).getD i 0 = runningMax vs i := by
  cases vs with
  | nil => simp at h
  | cons v tl =>
    cases i with
    | zero => simp [cummax, runningMax]
    | succ j =>
      have hj : j < tl.length := by simpa using h
      simpa [cummax, runningMax, List.take_succ_cons] using cummaxFrom_getD tl v j hj

theorem drawdownCol_length (vs : List ℚ) : (drawdownCol vs).length = vs.length := by
  simp [drawdownCol, cummax_length]

theorem drawdownCol_getElem (vs : List ℚ) (i : Nat) (h : i < (drawdownCol vs).length) :
    (drawdownCol vs).get ⟨i, h⟩ = specDrawdownAt vs i := by
  have hv : i < vs.length := by rw [← drawdownCol_length vs]; exact h
  have hc : i < (cummax vs).length := by rw [cummax_length]; exact hv
  simp only [drawdownCol, specDrawdownAt, List.get_eq_getElem, List.getElem_zipWith]
  rw [List.getD_eq_getElem vs 0 hv, ← cummax_getD vs i hv,
    List.getD_eq_getElem (cummax vs) 0 hc]

theorem drawdownCol_eq_map_range (vs : List ℚ) :
    drawdownCol vs = (List.range vs.length).map (specDrawdownAt vs) := by
  apply List.ext_get
  · simp [drawdownCol_length]
  · intro i h1 h2
    have := drawdownCol_getElem vs i h1
    simp only [List.get_eq_getElem] at this ⊢
    rw [this]
    simp

theorem drawdownCol_nonpos (vs : List ℚ) (h0 : 0 < vs.getD 0 0) :
    ∀ x ∈ drawdownCol vs, x ≤ 0 := by
  intro x hx
  obtain ⟨i, hi, hxi⟩ := List.mem_iff_getElem.mp hx
  have hx' : x = specDrawdownAt vs i := by
    rw [← hxi]
    simpa [List.get_eq_getElem] using drawdownCol_getElem vs i hi
  have hv : i < vs.length := by rw [← drawdownCol_length vs]; exact hi
  cases vs with
  | nil => simp at hv
  | cons v tl =>
    have hM : runningMax (v :: tl) i = (tl.take i).foldl max v := by
      simp [runningMax, List.take_succ_cons]
    have hvM : v ≤ runningMax (v :: tl) i := by
      rw [hM]; exact foldl_max_init_le (tl.take i) v
    have h0v : (0 : ℚ) < v := by simpa using h0
    have hMpos : 0 < runningMax (v :: tl) i := lt_of_lt_of_le h0v hvM
    have helem : (v :: tl).getD i 0 ≤ runningMax (v :: tl) i := by
      cases i with
      | zero => simpa using hvM
      | succ j =>
        have hj : j < tl.length := by simpa using hv
        have hjj : j < (tl.take (j + 1)).length := by
          simp [List.length_take]; omega
        have hmem : tl.get ⟨j, hj⟩ ∈ tl.take (j + 1) := by
          have : (tl.take (j + 1)).get ⟨j, hjj⟩ = tl.get ⟨j, hj⟩ := by
            simp [List.get_eq_getElem, List.getElem_take]
          rw [← this]
          exact List.get_mem _ _ hjj
        have hle : tl.get ⟨j, hj⟩ ≤ runningMax (v :: tl) (j + 1) := by
          rw [hM]
          exact foldl_max_mem_le (tl.take (j + 1)) v _ hmem
        have hgd : (v :: tl).getD (j + 1) 0 = tl.get ⟨j, hj⟩ := by
          rw [List.getD_cons_succ, List.getD_eq_getElem tl 0 hj]
          simp [List.get_eq_getElem]
        rw [hgd]
        exact hle
    rw [hx', specDrawdownAt]
    have hnum : (v :: tl).getD i 0 - runningMax (v :: tl) i ≤ 0 := by linarith
    exact div_nonpos_iff.mpr (Or.inr ⟨hnum, hMpos.le⟩)

theorem max_drawdown_nonpos (vs : List ℚ) (h0 : 0 < vs.getD 0 0) :
    max_drawdown vs ≤ 0 := by
  unfold max_drawdown
  cases hd : drawdownCol vs with
  | nil => simp
  | cons d ds =>
    have hdmem : d ∈ drawdownCol vs := by rw [hd]; exact List.mem_cons_self d ds
    exact le_trans (foldl_min_le_init ds d) (drawdownCol_nonpos vs h0 d hdmem)

theorem max_drawdown_eq_specMin (vs : List ℚ) :
    max_drawdown vs = specMinDrawdown vs := by
  unfold max_drawdown specMinDrawdown
  rw [drawdownCol_eq_map_range]

/-- C8: the computed max_drawdown equals the minimum over all recorded
points of (total_value - running maximum)/(running maximum), it is
non-positive for a non-empty equity curve starting at a positive value,
and on the curve [100, 120, 90, 110] it equals -1/4, attained at
index 2. -/
theorem max_drawdown_spec (vs : List ℚ) (_hne : vs ≠ []) (h0 : 0 < vs.getD 0 0) :
    max_drawdown vs = specMinDrawdown vs ∧
    max_drawdown vs ≤ 0 ∧
    max_drawdown [100, 120, 90, 110] = -(1/4) ∧
    specDrawdownAt [100, 120, 90, 110] 2 = -(1/4) := by
  refine ⟨max_drawdown_eq_specMin vs, max_drawdown_nonpos vs h0, ?_, ?_⟩
  · norm_num [max_drawdown, drawdownCol, cummax, cummaxFrom]
  · norm_num [specDrawdownAt, runningMax]

/-- C8 witness at the concrete equity curve of the scenario. -/
theorem max_drawdown_spec_witness :
    max_drawdown [100, 120, 90, 110] = specMinDrawdown [100, 120, 90, 110] ∧
    max_drawdown [100, 120, 90, 110] ≤ 0 :=
  ⟨(max_drawdown_spec [100, 120, 90, 110] (by simp) (by norm_num)).1,
   (max_drawdown_spec [100, 120, 90, 110] (by simp) (by norm_num)).2.1⟩

theorem pdiff_length (data : List ℚ) : (pdiff data).length = data.length := by
  simp [pdiff]

theorem rollingMean_length (p : Nat) (xs : List PFloat) :
    (rollingMean p xs).length = xs.length := by
  simp [rollingMean]

theorem rollingMean_getD (p : Nat) (xs : List PFloat) (i : Nat) (h : i < xs.length) :
    (rollingMean p xs).getD i PFloat.nan = rollingMeanAt p xs i := by
  have hl : i < (rollingMean p xs).length := by rw [rollingMean_length]; exact h
  rw [List.getD_eq_getElem _ _ hl]
  simp [rollingMean]

theorem windowAt_map (p : Nat) (l : List PFloat) (f : PFloat → PFloat) (i : Nat) :
    windowAt p (l.map f) i = (windowAt p l i).map f := by
  simp only [windowAt, ← List.map_take, ← List.map_drop]

theorem pdiff_cells (data : List ℚ) :
    ∀ x ∈ pdiff data, x = PFloat.nan ∨ ∃ q, x = PFloat.val q := by
  intro x hx
  simp only [pdiff, List.mem_map, List.mem_range] at hx
  obtain ⟨i, _, hi⟩ := hx
  by_cases h0 : i = 0
  · left; rw [← hi, if_pos h0]
  · right; exact ⟨_, by rw [← hi, if_neg h0]⟩

theorem valsOf_cons_val (q : ℚ) (l : List PFloat) :
    valsOf (PFloat.val q :: l) = (valsOf l).map (q :: ·) := rfl

theorem valsOf_clip_of_valsOf_negClip (dw : List PFloat) :
    (∀ x ∈ dw, x = PFloat.nan ∨ ∃ q, x = PFloat.val q) →
    ∀ ws, valsOf (dw.map negClipUpper0) = some ws →
      ∃ gs, valsOf (dw.map clipLower0) = some gs ∧ 0 ≤ gs.sum := by
  induction dw with
  | nil =>
    intro _ ws _
    exact ⟨[], rfl, le_refl 0⟩
  | cons x dw ih =>
    intro hcell ws hws
    rcases hcell x (List.mem_cons_self x dw) with hx | ⟨a, hx⟩
    · rw [hx] at hws
      simp [negClipUpper0, valsOf] at hws
    · rw [hx] at hws ⊢
      simp only [List.map_cons, negClipUpper0, valsOf_cons_val] at hws
      obtain ⟨ws', hws', _⟩ := Option.map_eq_some'.mp hws
      obtain ⟨gs', hgs', hsum⟩ :=
        ih (fun y hy => hcell y (List.mem_cons_of_mem x hy)) ws' hws'
      refine ⟨max a 0 :: gs', ?_, ?_⟩
      · simp only [List.map_cons, clipLower0, valsOf_cons_val, hgs', Option.map_some']
      · simp only [List.sum_cons]
        have : (0 : ℚ) ≤ max a 0 := le_max_right a 0
        linarith

theorem rollingMeanAt_val (p : Nat) (xs : List PFloat) (i : Nat) (q : ℚ)
    (h : rollingMeanAt p xs i = PFloat.val q) :
    ¬ i + 1 < p ∧ ∃ ws, valsOf (windowAt p xs i) = some ws ∧ ws.sum / p = q := by
  unfold rollingMeanAt at h
  split_ifs at h with hw
  refine ⟨hw, ?_⟩
  cases hv : valsOf (windowAt p xs i) with
  | none => rw [hv] at h; exact absurd h (by simp)
  | some ws =>
    rw [hv] at h
    exact ⟨ws, rfl, by simpa using h⟩

theorem rsiAvgLosses_length (data : List ℚ) (p : Nat) :
    (rsiAvgLosses data p).length = data.length := by
  simp [rsiAvgLosses, rollingMean_length, pdiff_length]

theorem rsiAvgGains_length (data : List ℚ) (p : Nat) :
    (rsiAvgGains data p).length = data.length := by
  simp [rsiAvgGains, rollingMean_length, pdiff_length]

theorem rsiList_getD (data : List ℚ) (p i : Nat) (h : i < data.length) :
    (rsiList data p).getD i PFloat.nan =
      rsiOfRs (PFloat.div ((rsiAvgGains data p).getD i PFloat.nan)
        ((rsiAvgLosses data p).getD i PFloat.nan)) := by
  have hg : i < (rsiAvgGains data p).length := by rw [rsiAvgGains_length]; exact h
  have hl : i < (rsiAvgLosses data p).length := by rw [rsiAvgLosses_length]; exact h
  have hz : i < (List.zipWith PFloat.div (rsiAvgGains data p) (rsiAvgLosses data p)).length := by
    rw [List.length_zipWith]
    omega
  have hr : i < (rsiList data p).length := by
    simpa [rsiList] using hz
  rw [List.getD_eq_getElem _ _ hr, List.getD_eq_getElem _ _ hg, List.getD_eq_getElem _ _ hl]
  simp [rsiList]

theorem avg_loss_zero_forces_index (data : List ℚ) (p i : Nat)
    (hL : (rsiAvgLosses data p).getD i PFloat.nan = PFloat.val 0) :
    i < data.length := by
  by_contra hge
  push_neg at hge
  have : (rsiAvgLosses data p).length ≤ i := by rw [rsiAvgLosses_length]; exact hge
  rw [List.getD_eq_default _ _ this] at hL
  cases hL

theorem avg_gain_val_of_avg_loss_zero (data : List ℚ) (p i : Nat)
    (hL : (rsiAvgLosses data p).getD i PFloat.nan = PFloat.val 0) :
    ∃ g : ℚ, 0 ≤ g ∧ (rsiAvgGains data p).getD i PFloat.nan = PFloat.val g := by
  have hi : i < data.length := avg_loss_zero_forces_index data p i hL
  have hid : i < (pdiff data).length := by rw [pdiff_length]; exact hi
  rw [rsiAvgLosses,
    rollingMean_getD p _ i (by rw [List.length_map]; exact hid)] at hL
  obtain ⟨hw, ws, hws, _⟩ := rollingMeanAt_val p _ i 0 hL
  rw [windowAt_map] at hws
  have hcells : ∀ x ∈ windowAt p (pdiff data) i, x = PFloat.nan ∨ ∃ q, x = PFloat.val q := by
    intro x hx
    apply pdiff_cells
    exact List.mem_of_mem_take (List.mem_of_mem_drop hx)
  obtain ⟨gs, hgs, hsum⟩ := valsOf_clip_of_valsOf_negClip _ hcells ws hws
  refine ⟨gs.sum / p, div_nonneg hsum (Nat.cast_nonneg p), ?_⟩
  rw [rsiAvgGains, rollingMean_getD p _ i (by rw [List.length_map]; exact hid)]
  unfold rollingMeanAt
  rw [if_neg hw, windowAt_map, hgs]

/-- C5 counterexample: for the price series [1, 2, 3] with period 2, the
2-bar rolling average loss at bar 2 is exactly 0, yet rsi yields the
clamped value 100 (RS is +infinity), not an undefined value. -/
theorem rsi_clamped_to_100_on_zero_avg_loss :
    (rsiAvgLosses [1, 2, 3] 2).getD 2 PFloat.nan = PFloat.val 0 ∧
    (rsiList [1, 2, 3] 2).getD 2 PFloat.nan = PFloat.val 100 ∧
    PFloat.val 100 ≠ PFloat.nan := by
  refine ⟨?_, ?_, by simp⟩
  · norm_num [rsiAvgLosses, rollingMean, rollingMeanAt, windowAt, pdiff, valsOf,
      negClipUpper0, List.range_succ]
  · norm_num [rsiList, rsiAvgGains, rsiAvgLosses, rollingMean, rollingMeanAt, windowAt,
      pdiff, valsOf, clipLower0, negClipUpper0, rsiOfRs, PFloat.div, PFloat.add,
      PFloat.sub, List.range_succ]

/-- C5 amended: at every bar where the rolling average loss is 0, rsi is
the undefined value only when the rolling average gain is also 0, and in
that case every downstream threshold comparison on it evaluates to
false; when the average gain is nonzero, RS is +infinity and rsi is the
clamped value 100. -/
theorem rsi_zero_avg_loss_dichotomy (data : List ℚ) (p i : Nat) (_hp : 0 < p)
    (hL : (rsiAvgLosses data p).getD i PFloat.nan = PFloat.val 0) :
    ((rsiAvgGains data p).getD i PFloat.nan = PFloat.val 0 →
      (rsiList data p).getD i PFloat.nan = PFloat.nan ∧
      ∀ t : ℚ, PFloat.lt ((rsiList data p).getD i PFloat.nan) (PFloat.val t) = false ∧
        PFloat.gt ((rsiList data p).getD i PFloat.nan) (PFloat.val t) = false) ∧
    ((rsiAvgGains data p).getD i PFloat.nan ≠ PFloat.val 0 →
      (rsiList data p).getD i PFloat.nan = PFloat.val 100) := by
  have hi : i < data.length := avg_loss_zero_forces_index data p i hL
  obtain ⟨g, hg0, hG⟩ := avg_gain_val_of_avg_loss_zero data p i hL
  have hrsi := rsiList_getD data p i hi
  rw [hG, hL] at hrsi
  constructor
  · intro hzero
    rw [hG] at hzero
    have hg : g = 0 := by simpa using hzero
    subst hg
    have hnan : (rsiList data p).getD i PFloat.nan = PFloat.nan := by
      rw [hrsi]
      norm_num [PFloat.div, rsiOfRs, PFloat.add, PFloat.sub]
    rw [hnan]
    exact ⟨rfl, fun t => ⟨rfl, rfl⟩⟩
  · intro hne
    have hgne : g ≠ 0 := by
      intro hc
      exact hne (by rw [hG, hc])
    have hgpos : 0 < g := lt_of_le_of_ne hg0 (Ne.symm hgne)
    rw [hrsi]
    rw [show PFloat.div (PFloat.val g) (PFloat.val 0) = PFloat.pinf by
      simp [PFloat.div, hgne, hgpos]]
    norm_num [rsiOfRs, PFloat.add, PFloat.div, PFloat.sub]

/-- C5 amended witness at the concrete series [1, 2, 3], period 2, bar 2. -/
theorem rsi_zero_avg_loss_dichotomy_witness :
    (rsiList [1, 2, 3] 2).getD 2 PFloat.nan = PFloat.val 100 :=
  (rsi_zero_avg_loss_dichotomy [1, 2, 3] 2 2 (by norm_num)
    (by norm_num [rsiAvgLosses, rollingMean, rollingMeanAt, windowAt, pdiff, valsOf,
      negClipUpper0, List.range_succ])).2
    (by norm_num [rsiAvgGains, rollingMean, rollingMeanAt, windowAt, pdiff, valsOf,
      clipLower0, List.range_succ])

theorem getD_nan_or_val (l : List PFloat)
    (hfin : ∀ x ∈ l, x = PFloat.nan ∨ ∃ q, x = PFloat.val q) (j : Nat) :
    l.getD j PFloat.nan = PFloat.nan ∨ ∃ q, l.getD j PFloat.nan = PFloat.val q := by
  by_cases hj : j < l.length
  · rw [List.getD_eq_getElem _ _ hj]
    exact hfin _ (List.getElem_mem hj)
  · push_neg at hj
    rw [List.getD_eq_default _ _ hj]
    left
    rfl

theorem pf_gt_true_elim (x y : PFloat)
    (hx : x = PFloat.nan ∨ ∃ q, x = PFloat.val q)
    (hy : y = PFloat.nan ∨ ∃ q, y = PFloat.val q)
    (h : PFloat.gt x y = true) :
    ∃ a b : ℚ, x = PFloat.val a ∧ y = PFloat.val b ∧ b < a := by
  rcases hx with hx | ⟨a, hx⟩ <;> rcases hy with hy | ⟨b, hy⟩ <;> subst hx <;> subst hy
  · simp [PFloat.gt, PFloat.lt] at h
  · simp [PFloat.gt, PFloat.lt] at h
  · simp [PFloat.gt, PFloat.lt] at h
  · exact ⟨a, b, rfl, rfl, by simpa [PFloat.gt, PFloat.lt] using h⟩

theorem pf_le_true_elim (x y : PFloat)
    (hx : x = PFloat.nan ∨ ∃ q, x = PFloat.val q)
    (hy : y = PFloat.nan ∨ ∃ q, y = PFloat.val q)
    (h : PFloat.le x y = true) :
    ∃ a b : ℚ, x = PFloat.val a ∧ y = PFloat.val b ∧ a ≤ b := by
  rcases hx with hx | ⟨a, hx⟩ <;> rcases hy with hy | ⟨b, hy⟩ <;> subst hx <;> subst hy
  · simp [PFloat.le] at h
  · simp [PFloat.le] at h
  · simp [PFloat.le] at h
  · exact ⟨a, b, rfl, rfl, by simpa [PFloat.le] using h⟩

theorem maCrossoverSignals_length (sW lW : Nat) (df : DFrame) :
    (maCrossoverSignals sW lW df).length = df.close.length := by
  simp [maCrossoverSignals]

theorem maCrossoverSignals_getD (sW lW : Nat) (df : DFrame) (i : Nat)
    (h : i < df.close.length) :
    (maCrossoverSignals sW lW df).getD i 0 =
      maSignalAt (maResolvedCol sW df) (maResolvedCol lW df) i := by
  have hl : i < (maCrossoverSignals sW lW df).length := by
    rw [maCrossoverSignals_length]; exact h
  rw [List.getD_eq_getElem _ _ hl]
  simp [maCrossoverSignals]

theorem maSignalAt_buy_elim (s l : List PFloat) (i : Nat)
    (h : maSignalAt s l i = 1) :
    PFloat.gt (s.getD i PFloat.nan) (l.getD i PFloat.nan) = true ∧
    PFloat.le (shiftAt s i) (shiftAt l i) = true := by
  simp only [maSignalAt] at h
  split_ifs at h with h1 h2
  · simp only [Bool.and_eq_true] at h1
    exact h1
  · exact absurd h (by norm_num)

theorem mapped_val_cells (qs : List ℚ) :
    ∀ x ∈ qs.map (fun q : ℚ => PFloat.val q), x = PFloat.nan ∨ ∃ q, x = PFloat.val q := by
  intro x hx
  obtain ⟨q, _, hq⟩ := List.mem_map.mp hx
  exact Or.inr ⟨q, hq.symm⟩

theorem crossoverScenarioDf_short :
    maResolvedCol 2 crossoverScenarioDf = [1, 2, 3, 4, 5].map (fun q : ℚ => PFloat.val q) := by
  simp [maResolvedCol, crossoverScenarioDf, List.lookup,
    show ("sma_" ++ toString (2:Nat) == "sma_2") = true from rfl]

theorem crossoverScenarioDf_long :
    maResolvedCol 3 crossoverScenarioDf = [3, 3, 3, 3, 3].map (fun q : ℚ => PFloat.val q) := by
  simp [maResolvedCol, crossoverScenarioDf, List.lookup,
    show ("sma_" ++ toString (3:Nat) == "sma_2") = false from rfl,
    show ("sma_" ++ toString (3:Nat) == "sma_3") = true from rfl]

/-- C7: MovingAverageCrossover Buy signals are edge-triggered - when the
SMA columns hold only defined-or-NaN cells, a Buy at bar i forces i >= 1,
finite values at bars i and i-1 on both columns, the short SMA strictly
above the long SMA at bar i, and the short SMA at or below the long SMA
at bar i-1; on close [1,2,3,4,5] with short SMA column [1,2,3,4,5] and
long SMA column [3,3,3,3,3], the signal series is [0,0,0,1,0]: exactly
one Buy, at the bar where the short SMA first exceeds 3. -/
theorem ma_crossover_edge_triggered (df : DFrame) (sW lW i : Nat)
    (hfinS : ∀ x ∈ maResolvedCol sW df, x = PFloat.nan ∨ ∃ q, x = PFloat.val q)
    (hfinL : ∀ x ∈ maResolvedCol lW df, x = PFloat.nan ∨ ∃ q, x = PFloat.val q)
    (hbuy : (maCrossoverSignals sW lW df).getD i 0 = 1) :
    (1 ≤ i ∧ ∃ a b a2 b2 : ℚ,
      (maResolvedCol sW df).getD i PFloat.nan = PFloat.val a ∧
      (maResolvedCol lW df).getD i PFloat.nan = PFloat.val b ∧
      (maResolvedCol sW df).getD (i - 1) PFloat.nan = PFloat.val a2 ∧
      (maResolvedCol lW df).getD (i - 1) PFloat.nan = PFloat.val b2 ∧
      b < a ∧ a2 ≤ b2) ∧
    maCrossoverSignals 2 3 crossoverScenarioDf = [0, 0, 0, 1, 0] := by
  constructor
  · have hi : i < df.close.length := by
      by_contra hge
      push_neg at hge
      have hlen : (maCrossoverSignals sW lW df).length ≤ i := by
        rw [maCrossoverSignals_length]; exact hge
      rw [List.getD_eq_default _ _ hlen] at hbuy
      exact absurd hbuy (by norm_num)
    rw [maCrossoverSignals_getD sW lW df i hi] at hbuy
    obtain ⟨hgt, hle⟩ := maSignalAt_buy_elim _ _ i hbuy
    have hipos : 1 ≤ i := by
      by_contra h0
      push_neg at h0
      interval_cases i
      simp [shiftAt, PFloat.le] at hle
    have hsh : shiftAt (maResolvedCol sW df) i
        = (maResolvedCol sW df).getD (i - 1) PFloat.nan := by
      unfold shiftAt
      rw [if_neg (by omega)]
    have hlh : shiftAt (maResolvedCol lW df) i
        = (maResolvedCol lW df).getD (i - 1) PFloat.nan := by
      unfold shiftAt
      rw [if_neg (by omega)]
    rw [hsh, hlh] at hle
    obtain ⟨a, b, ha, hb, hab⟩ :=
      pf_gt_true_elim _ _ (getD_nan_or_val _ hfinS i) (getD_nan_or_val _ hfinL i) hgt
    obtain ⟨a2, b2, ha2, hb2, hab2⟩ :=
      pf_le_true_elim _ _ (getD_nan_or_val _ hfinS (i - 1)) (getD_nan_or_val _ hfinL (i - 1)) hle
    exact ⟨hipos, a, b, a2, b2, ha, hb, ha2, hb2, hab, hab2⟩
  · norm_num [maCrossoverSignals, maResolvedCol, maSignalAt, shiftAt, crossoverScenarioDf,
      PFloat.gt, PFloat.lt, PFloat.le, PFloat.ge, List.range_succ, List.lookup,
      show ("sma_" ++ toString (2:Nat) == "sma_2") = true from rfl,
      show ("sma_" ++ toString (3:Nat) == "sma_2") = false from rfl,
      show ("sma_" ++ toString (3:Nat) == "sma_3") = true from rfl]

/-- C7 witness: the Buy at bar 3 of the concrete crossover scenario. -/
theorem ma_crossover_edge_triggered_witness :
    1 ≤ 3 ∧ ∃ a b a2 b2 : ℚ,
      (maResolvedCol 2 crossoverScenarioDf).getD 3 PFloat.nan = PFloat.val a ∧
      (maResolvedCol 3 crossoverScenarioDf).getD 3 PFloat.nan = PFloat.val b ∧
      (maResolvedCol 2 crossoverScenarioDf).getD (3 - 1) PFloat.nan = PFloat.val a2 ∧
      (maResolvedCol 3 crossoverScenarioDf).getD (3 - 1) PFloat.nan = PFloat.val b2 ∧
      b < a ∧ a2 ≤ b2 :=
  (ma_crossover_edge_triggered crossoverScenarioDf 2 3 3
    (by rw [crossoverScenarioDf_short]; exact mapped_val_cells _)
    (by rw [crossoverScenarioDf_long]; exact mapped_val_cells _)
    (by
      norm_num [maCrossoverSignals, maResolvedCol, maSignalAt, shiftAt, crossoverScenarioDf,
        PFloat.gt, PFloat.lt, PFloat.le, PFloat.ge, List.range_succ, List.lookup,
        show ("sma_" ++ toString (2:Nat) == "sma_2") = true from rfl,
        show ("sma_" ++ toString (3:Nat) == "sma_2") = false from rfl,
        show ("sma_" ++ toString (3:Nat) == "sma_3") = true from rfl])).1

/-- C6 counterexample: MovingAverageCrossover.generate_signals on an
input missing both required SMA columns raises no error: it silently
computes the SMAs from close itself and produces a Buy signal at bar 3
of the close series [3, 1, 1, 10]. -/
theorem ma_crossover_no_error_on_missing_columns :
    maCrossoverGenerateSignals 2 3 ⟨[3, 1, 1, 10], []⟩ = Except.ok [0, 0, 0, 1] ∧
    hasCol ⟨[3, 1, 1, 10], []⟩ "sma_2" = false ∧
    hasCol ⟨[3, 1, 1, 10], []⟩ "sma_3" = false := by
  refine ⟨?_, by simp [hasCol, List.lookup], by simp [hasCol, List.lookup]⟩
  norm_num [maCrossoverGenerateSignals, maCrossoverSignals, maResolvedCol, maSignalAt,
    rollingMean, rollingMeanAt, windowAt, valsOf, shiftAt, PFloat.gt, PFloat.lt,
    PFloat.le, PFloat.ge, List.range_succ, List.lookup]

/-- C6 amended: CombinedStrategy.generate_signals raises the descriptive
error naming the missing indicators exactly when a required indicator
column is absent, before computing any signal; MovingAverageCrossover
never raises - it computes missing SMA columns itself. -/
theorem missing_indicator_error_policy (df : DFrame) (ov ob : ℚ) (m sW lW : Nat) :
    (exceptOk (combinedGenerateSignals ov ob m df) = true ↔ combinedMissing df = []) ∧
    (combinedMissing df ≠ [] →
      combinedGenerateSignals ov ob m df =
        Except.error ("Missing required indicators: " ++
          String.intercalate ", " (combinedMissing df))) ∧
    exceptOk (maCrossoverGenerateSignals sW lW df) = true := by
  refine ⟨?_, ?_, rfl⟩
  · cases hc : (combinedMissing df).isEmpty with
    | true =>
      have he : combinedMissing df = [] := List.isEmpty_iff.mp hc
      simp [combinedGenerateSignals, hc, exceptOk, he]
    | false =>
      have hne : combinedMissing df ≠ [] := by
        intro h
        rw [h] at hc
        simp at hc
      simp [combinedGenerateSignals, hc, exceptOk, hne]
  · intro hne
    have hc : (combinedMissing df).isEmpty = false := by
      cases hc : (combinedMissing df).isEmpty with
      | true => exact absurd (List.isEmpty_iff.mp hc) hne
      | false => rfl
    simp [combinedGenerateSignals, hc]

/-- C6 amended witness: the concrete error on an input with no columns. -/
theorem missing_indicator_error_policy_witness :
    combinedGenerateSignals 30 70 2 ⟨[1], []⟩ =
      Except.error ("Missing required indicators: " ++
        String.intercalate ", " (combinedMissing ⟨[1], []⟩)) :=
  (missing_indicator_error_policy ⟨[1], []⟩ 30 70 2 2 3).2.1
    (by simp [combinedMissing, combinedRequired, hasCol, List.lookup])

end Backtest
